import Mathlib

/-!
# Verification of the rmf_ros2 lane-blocker core

Shallow embedding of the obstacle/lane tracker declared in
`src/rmf_obstacle_ros2/src/lane_blocker/LaneBlocker.hpp` and of the
oriented-box intersection checker exercised by the test scenario in
`src/unnamed/part_000`.  C++ strings are modelled as `List Char`,
`std::size_t` as `Nat`, ROS times and durations as `Int`.
-/

namespace LaneBlockerModel

/-- Decimal digit characters, as produced by `std::to_string`. -/
def digitChar : Nat → Char
  | 0 => '0'
  | 1 => '1'
  | 2 => '2'
  | 3 => '3'
  | 4 => '4'
  | 5 => '5'
  | 6 => '6'
  | 7 => '7'
  | 8 => '8'
  | 9 => '9'
  | _ => '*'

/-- Decimal rendering of a natural number, most significant digit first:
the behaviour of `std::to_string(std::size_t)`. -/
def natChars (n : Nat) : List Char :=
  if n = 0 then ['0'] else ((Nat.digits 10 n).map digitChar).reverse

theorem digitChar_ne_underscore {d : Nat} (hd : d < 10) : digitChar d ≠ '_' := by
  interval_cases d <;> decide

theorem digitChar_injOn {a b : Nat} (ha : a < 10) (hb : b < 10)
    (h : digitChar a = digitChar b) : a = b := by
  revert h; interval_cases a <;> interval_cases b <;> decide

theorem map_digitChar_inj :
    ∀ {l1 l2 : List Nat}, (∀ d ∈ l1, d < 10) → (∀ d ∈ l2, d < 10) →
      l1.map digitChar = l2.map digitChar → l1 = l2
  | [], [], _, _, _ => rfl
  | [], _ :: _, _, _, h => by simp at h
  | _ :: _, [], _, _, h => by simp at h
  | a :: l1, b :: l2, h1, h2, h => by
    simp only [List.map_cons, List.cons.injEq] at h
    have hab : a = b :=
      digitChar_injOn (h1 a (by simp)) (h2 b (by simp)) h.1
    have : l1 = l2 :=
      map_digitChar_inj (fun d hd => h1 d (by simp [hd]))
        (fun d hd => h2 d (by simp [hd])) h.2
    simp [hab, this]

theorem natChars_inj {m n : Nat} (h : natChars m = natChars n) : m = n := by
  unfold natChars at h
  by_cases hm : m = 0 <;> by_cases hn : n = 0 <;>
    simp only [hm, hn, if_true, if_false, reduceIte] at h ⊢
  · -- m = 0, n ≠ 0
    exfalso
    have h' : List.map digitChar (Nat.digits 10 n) = ['0'] := by
      simpa using congrArg List.reverse h.symm
    have hne := (Nat.digits_ne_nil_iff_ne_zero (b := 10)).mpr hn
    obtain ⟨d, rest, hd⟩ := List.exists_cons_of_ne_nil hne
    rw [hd, List.map_cons] at h'
    rcases List.cons_eq_cons.mp h' with ⟨hchar, htail⟩
    have hrest : rest = [] := List.map_eq_nil_iff.mp htail
    have hdlt : d < 10 :=
      Nat.digits_lt_base (by norm_num) (by rw [hd]; simp)
    have hd0 : d = 0 := digitChar_injOn hdlt (by norm_num) hchar
    have := Nat.ofDigits_digits 10 n
    rw [hd, hrest, hd0] at this
    simp [Nat.ofDigits] at this
    exact hn this.symm
  · -- m ≠ 0, n = 0
    exfalso
    have h' : List.map digitChar (Nat.digits 10 m) = ['0'] := by
      simpa using congrArg List.reverse h
    have hne := (Nat.digits_ne_nil_iff_ne_zero (b := 10)).mpr hm
    obtain ⟨d, rest, hd⟩ := List.exists_cons_of_ne_nil hne
    rw [hd, List.map_cons] at h'
    rcases List.cons_eq_cons.mp h' with ⟨hchar, htail⟩
    have hrest : rest = [] := List.map_eq_nil_iff.mp htail
    have hdlt : d < 10 :=
      Nat.digits_lt_base (by norm_num) (by rw [hd]; simp)
    have hd0 : d = 0 := digitChar_injOn hdlt (by norm_num) hchar
    have := Nat.ofDigits_digits 10 m
    rw [hd, hrest, hd0] at this
    simp [Nat.ofDigits] at this
    exact hm this.symm
  · -- both nonzero
    have h' := congrArg List.reverse h
    simp only [List.reverse_reverse] at h'
    have hdig : Nat.digits 10 m = Nat.digits 10 n :=
      map_digitChar_inj
        (fun d hd => Nat.digits_lt_base (by norm_num) hd)
        (fun d hd => Nat.digits_lt_base (by norm_num) hd) h'
    have := Nat.ofDigits_digits 10 m
    rw [hdig, Nat.ofDigits_digits] at this
    exact this.symm

theorem underscore_not_mem_natChars (n : Nat) : '_' ∉ natChars n := by
  unfold natChars
  split
  · decide
  · intro h
    rw [List.mem_reverse] at h
    obtain ⟨d, hd, hEq⟩ := List.mem_map.mp h
    exact digitChar_ne_underscore (Nat.digits_lt_base (by norm_num) hd) hEq

/-- If a character is absent from both right parts, splitting a list at that
character is unambiguous. -/
theorem append_cons_inj {α : Type} {c : α} :
    ∀ {l1 l2 r1 r2 : List α}, c ∉ r1 → c ∉ r2 →
      l1 ++ c :: r1 = l2 ++ c :: r2 → l1 = l2 ∧ r1 = r2
  | [], [], r1, r2, _, _, h => by simpa using h
  | [], b :: l2, r1, r2, h1, _, h => by
    simp only [List.nil_append, List.cons_append, List.cons.injEq] at h
    exact absurd (h.2 ▸ List.mem_append_right l2 (List.mem_cons_self c r2)) h1
  | a :: l1, [], r1, r2, _, h2, h => by
    simp only [List.nil_append, List.cons_append, List.cons.injEq] at h
    exact absurd (h.2.symm ▸ List.mem_append_right l1 (List.mem_cons_self c r1)) h2
  | a :: l1, b :: l2, r1, r2, h1, h2, h => by
    simp only [List.cons_append, List.cons.injEq] at h
    have ih := append_cons_inj h1 h2 h.2
    exact ⟨by simp [h.1, ih.1], ih.2⟩

/-- `LaneBlocker::get_obstacle_key` (LaneBlocker.hpp lines 93-97):
`source + "_" + std::to_string(id)`. -/
def get_obstacle_key (source : List Char) (id : Nat) : List Char :=
  source ++ '_' :: natChars id

/-- `LaneBlocker::get_lane_key` (LaneBlocker.hpp lines 105-110):
`fleet_name + "_" + std::to_string(lane_index)`. -/
def get_lane_key (fleet_name : List Char) (lane_index : Nat) : List Char :=
  fleet_name ++ '_' :: natChars lane_index

theorem key_append_inj {s1 s2 : List Char} {i1 i2 : Nat}
    (h : s1 ++ '_' :: natChars i1 = s2 ++ '_' :: natChars i2) :
    s1 = s2 ∧ i1 = i2 := by
  have := append_cons_inj (underscore_not_mem_natChars i1)
    (underscore_not_mem_natChars i2) h
  exact ⟨this.1, natChars_inj this.2⟩

/-- Claim C10: key construction is injective — `get_obstacle_key(s1, i1) =
get_obstacle_key(s2, i2)` iff `s1 = s2 ∧ i1 = i2`, and likewise for
`get_lane_key`, even when the source or fleet-name strings contain
underscores followed by digits. -/
theorem c10_key_construction_injective :
    (∀ (s1 s2 : List Char) (i1 i2 : Nat),
      get_obstacle_key s1 i1 = get_obstacle_key s2 i2 ↔ (s1 = s2 ∧ i1 = i2))
    ∧ (∀ (f1 f2 : List Char) (j1 j2 : Nat),
      get_lane_key f1 j1 = get_lane_key f2 j2 ↔ (f1 = f2 ∧ j1 = j2)) := by
  constructor
  · intro s1 s2 i1 i2
    constructor
    · exact fun h => key_append_inj h
    · rintro ⟨rfl, rfl⟩; rfl
  · intro f1 f2 j1 j2
    constructor
    · exact fun h => key_append_inj h
    · rintro ⟨rfl, rfl⟩; rfl

/-! ## ObstacleData (LaneBlocker.hpp lines 64-120) -/

/-- `geometry_msgs::msg::Vector3`. -/
structure Vector3 where
  x : ℝ
  y : ℝ
  z : ℝ

/-- `geometry_msgs::msg::Quaternion`. -/
structure Quaternion where
  x : ℝ
  y : ℝ
  z : ℝ
  w : ℝ

/-- `geometry_msgs::msg::Pose` (position and orientation). -/
structure Pose where
  position : Vector3
  orientation : Quaternion

/-- `vision_msgs::msg::BoundingBox3D` (center pose and size). -/
structure BoundingBox3D where
  center : Pose
  size : Vector3

/-- `LaneBlocker::ObstacleData` (LaneBlocker.hpp lines 64-90). -/
structure ObstacleData where
  expiry_time : Int
  id : Nat
  source : List Char
  transformed_bbox : BoundingBox3D

/-- `ObstacleData::operator==` (LaneBlocker.hpp lines 82-89): compares the
obstacle keys built from `(source, id)` only. -/
def ObstacleData.eqOp (a b : ObstacleData) : Bool :=
  get_obstacle_key a.source a.id == get_obstacle_key b.source b.id

/-- Model of `ObstacleDataConstSharedPtr`, the key type of the hashed
`_obstacle_to_lanes_map` (LaneBlocker.hpp lines 141-144): a shared pointer
is the address of the owned object (`addr`) together with the pointee. -/
structure ObstacleDataPtr where
  addr : Nat
  data : ObstacleData

/-- The map's key-equality comparator: `_obstacle_to_lanes_map` passes no
`KeyEqual` argument, so `std::unordered_map` defaults it to
`std::equal_to<ObstacleDataConstSharedPtr>`, which compares the stored
pointer values themselves — `ObstacleData::operator==` is never consulted
by the map. -/
def ptrEq (a b : ObstacleDataPtr) : Bool := a.addr == b.addr

/-- `LaneBlocker::ObstacleHash` (LaneBlocker.hpp lines 112-120): applied to
the shared-pointer key, it hashes the obstacle key built from the pointee's
`(source, id)`; the string hash itself (`std::hash<std::string>`) is an
arbitrary parameter `h`, and the pointer value does not enter the hash. -/
def obstacleHash (h : List Char → Nat) (p : ObstacleDataPtr) : Nat :=
  h (get_obstacle_key p.data.source p.data.id)

/-- A concrete bounding box for the C9 counterexample. -/
def bbox0 : BoundingBox3D := ⟨⟨⟨0, 0, 0⟩, ⟨0, 0, 0, 1⟩⟩, ⟨0, 0, 0⟩⟩

/-- Claim C9, counterexample: the hashed obstacle-to-lanes map does NOT
treat same-identity records as the same element — two distinct shared
pointers (addresses 1 and 2) to records with the same `(source, id)` but
updated expiry compare equal under `ObstacleData::operator==`, yet the
map's defaulted key equality (`std::equal_to` over the shared pointer)
distinguishes them, so a re-observed obstacle held through a new pointer is
a distinct map element. -/
theorem c9_counterexample_map_pointer_identity :
    ¬ (∀ p1 p2 : ObstacleDataPtr,
      ObstacleData.eqOp p1.data p2.data = true → ptrEq p1 p2 = true) := by
  intro hAll
  have h1 : ObstacleData.eqOp
      (⟨0, 7, ['s'], bbox0⟩ : ObstacleData)
      (⟨5, 7, ['s'], bbox0⟩ : ObstacleData) = true := by
    unfold ObstacleData.eqOp
    exact beq_self_eq_true _
  have h2 := hAll ⟨1, ⟨0, 7, ['s'], bbox0⟩⟩ ⟨2, ⟨5, 7, ['s'], bbox0⟩⟩ h1
  simp [ptrEq] at h2

/-- Claim C9, amended: two `ObstacleData` records compare equal under
`operator==` exactly when their `(source, id)` pairs produce the same key
(equivalently, when the pairs are equal), regardless of any difference in
`expiry_time` or `transformed_bbox`, and `ObstacleHash` gives
same-identity pointees the same hash (the same bucket) regardless of the
pointer value; but the hashed obstacle-to-lanes map's key equality is the
defaulted `std::equal_to` over the shared pointer, which holds exactly
when the pointer values coincide — so a re-observed obstacle is treated as
the same element only when held through the very same pointer, not merely
the same identity. -/
theorem c9_identity_equality_and_pointer_map :
    (∀ a b : ObstacleData, ObstacleData.eqOp a b = true ↔
      (a.source = b.source ∧ a.id = b.id))
    ∧ (∀ (h : List Char → Nat) (a1 a2 : Nat) (e1 e2 : Int) (s : List Char)
        (i : Nat) (b1 b2 : BoundingBox3D),
      ObstacleData.eqOp ⟨e1, i, s, b1⟩ ⟨e2, i, s, b2⟩ = true
      ∧ obstacleHash h ⟨a1, ⟨e1, i, s, b1⟩⟩ = obstacleHash h ⟨a2, ⟨e2, i, s, b2⟩⟩)
    ∧ (∀ p1 p2 : ObstacleDataPtr, ptrEq p1 p2 = true ↔ p1.addr = p2.addr) := by
  refine ⟨?_, ?_, ?_⟩
  · intro a b
    unfold ObstacleData.eqOp
    rw [beq_iff_eq]
    constructor
    · exact fun h => key_append_inj h
    · rintro ⟨h1, h2⟩; rw [h1, h2]
  · intro h a1 a2 e1 e2 s i b1 b2
    constructor
    · unfold ObstacleData.eqOp
      exact beq_self_eq_true _
    · rfl
  · intro p1 p2
    unfold ptrEq
    exact beq_iff_eq

/-! ## Geometry engine

The implementation of `IntersectionChecker::between` is not among the
repository's files; only its test scenario (`src/unnamed/part_000`) is.
The definitions below are therefore modelled from the spec, section 4.1. -/

/-- `IntersectionChecker::CollisionGeometry` (`vision_msgs::msg::BoundingBox2D`):
center pose `(x, y, theta)` and sizes. -/
structure CollisionGeometry where
  x : ℝ
  y : ℝ
  theta : ℝ
  size_x : ℝ
  size_y : ℝ

/-- Modelled from the spec: the absolute tolerance (approx 1e-3) used by the
missing `IntersectionChecker::between` to treat near-zero gaps as
touching/intersecting. -/
noncomputable def tol : ℝ := 1 / 1000

/-- Dot product of plane vectors. -/
noncomputable def dot (a b : ℝ × ℝ) : ℝ := a.1 * b.1 + a.2 * b.2

/-- First edge-normal direction of an oriented box (its local x axis). -/
noncomputable def axisU (o : CollisionGeometry) : ℝ × ℝ :=
  (Real.cos o.theta, Real.sin o.theta)

/-- Second edge-normal direction of an oriented box (its local y axis). -/
noncomputable def axisV (o : CollisionGeometry) : ℝ × ℝ :=
  (-Real.sin o.theta, Real.cos o.theta)

/-- Modelled from the spec: half-length of the projection of an oriented box
onto a direction (the box's extents projected onto the axis). -/
noncomputable def extentOn (o : CollisionGeometry) (a : ℝ × ℝ) : ℝ :=
  o.size_x / 2 * |dot (axisU o) a| + o.size_y / 2 * |dot (axisV o) a|

/-- Modelled from the spec: the signed gap between the projected intervals of
the two boxes on one axis (positive = the projections are that far apart). -/
noncomputable def gapOn (o1 o2 : CollisionGeometry) (a : ℝ × ℝ) : ℝ :=
  |dot (o2.x - o1.x, o2.y - o1.y) a| - (extentOn o1 a + extentOn o2 a)

/-- Modelled from the spec: the 4 candidate separating axes — the two
edge-normal directions of each box. -/
noncomputable def candidateAxes (o1 o2 : CollisionGeometry) : List (ℝ × ℝ) :=
  [axisU o1, axisV o1, axisU o2, axisV o2]

/-- The signed gaps of the 4 candidate axes. -/
noncomputable def gaps (o1 o2 : CollisionGeometry) : List ℝ :=
  (candidateAxes o1 o2).map (gapOn o1 o2)

/-- Modelled from the spec: the boolean result of the missing
`IntersectionChecker::between` — the boxes intersect when every candidate
axis shows overlapping intervals (no gap beyond the tolerance). -/
def intersects (o1 o2 : CollisionGeometry) : Prop :=
  ∀ g ∈ gaps o1 o2, g ≤ tol

/-- Modelled from the spec: the separation reported through `how_much` by the
missing `IntersectionChecker::between` — the minimum positive gap among the
axes tested. -/
noncomputable def separation (o1 o2 : CollisionGeometry) : ℝ :=
  sInf {g | g ∈ gaps o1 o2 ∧ tol < g}

theorem gapOn_comm (o1 o2 : CollisionGeometry) (a : ℝ × ℝ) :
    gapOn o1 o2 a = gapOn o2 o1 a := by
  unfold gapOn dot
  rw [show (o2.x - o1.x) * a.1 + (o2.y - o1.y) * a.2
      = -((o1.x - o2.x) * a.1 + (o1.y - o2.y) * a.2) by ring, abs_neg]
  ring

theorem posGaps_comm (o1 o2 : CollisionGeometry) :
    {g | g ∈ gaps o1 o2 ∧ tol < g} = {g | g ∈ gaps o2 o1 ∧ tol < g} := by
  ext g
  simp only [Set.mem_setOf_eq, gaps, candidateAxes, List.map_cons, List.map_nil,
    List.mem_cons, List.not_mem_nil, or_false, gapOn_comm o1 o2]
  tauto

/-- Claim C5: the intersection test is commutative and the reported
separation is identical for both argument orderings, for every pair of
oriented boxes (in particular all valid ones with positive extents). -/
theorem c5_geometry_symmetry (A B : CollisionGeometry) :
    (intersects A B ↔ intersects B A) ∧ separation A B = separation B A := by
  constructor
  · unfold intersects
    simp only [gaps, candidateAxes, List.map_cons, List.map_nil, List.mem_cons,
      List.not_mem_nil, or_false, forall_eq_or_imp, forall_eq, gapOn_comm A B]
    tauto
  · unfold separation
    rw [posGaps_comm]

/-- Gap between the x-projections of two axis-aligned boxes. -/
noncomputable def axisGapX (o1 o2 : CollisionGeometry) : ℝ :=
  |o2.x - o1.x| - (o1.size_x / 2 + o2.size_x / 2)

/-- Gap between the y-projections of two axis-aligned boxes. -/
noncomputable def axisGapY (o1 o2 : CollisionGeometry) : ℝ :=
  |o2.y - o1.y| - (o1.size_y / 2 + o2.size_y / 2)

theorem gaps_axis_aligned (o1 o2 : CollisionGeometry)
    (h1 : o1.theta = 0) (h2 : o2.theta = 0) :
    gaps o1 o2 =
      [axisGapX o1 o2, axisGapY o1 o2, axisGapX o1 o2, axisGapY o1 o2] := by
  simp [gaps, candidateAxes, gapOn, extentOn, axisU, axisV, dot, h1, h2,
    axisGapX, axisGapY, abs_of_nonneg]

theorem posGaps_axis_aligned (o1 o2 : CollisionGeometry)
    (h1 : o1.theta = 0) (h2 : o2.theta = 0) :
    {g | g ∈ gaps o1 o2 ∧ tol < g} =
      {g | (g = axisGapX o1 o2 ∨ g = axisGapY o1 o2) ∧ tol < g} := by
  ext g
  simp only [Set.mem_setOf_eq, gaps_axis_aligned o1 o2 h1 h2, List.mem_cons,
    List.not_mem_nil, or_false]
  tauto

theorem c6_gaps :
    gaps ⟨1, 0, 0, 2, 2⟩ ⟨4, 0, 0, 2, 2⟩ = [1, -2, 1, -2] := by
  rw [gaps_axis_aligned _ _ rfl rfl]
  norm_num [axisGapX, axisGapY]

theorem c6_separation : separation ⟨1, 0, 0, 2, 2⟩ ⟨4, 0, 0, 2, 2⟩ = 1 := by
  unfold separation
  have hset : {g | g ∈ gaps ⟨1, 0, 0, 2, 2⟩ ⟨4, 0, 0, 2, 2⟩ ∧ tol < g}
      = {(1 : ℝ)} := by
    ext g
    simp only [c6_gaps, List.mem_cons, List.not_mem_nil, or_false,
      Set.mem_setOf_eq, Set.mem_singleton_iff, tol]
    constructor
    · rintro ⟨rfl | rfl | rfl | rfl, ht⟩ <;> first | rfl | norm_num at ht
    · rintro rfl
      norm_num
  rw [hset, csInf_singleton]

/-- Claim C6: the axis-aligned 2x2 boxes at x=1 and x=4 do not intersect and
the reported separation is exactly 1 (hence within 1e-3 of 1.0); in general,
for axis-aligned boxes the reported separation is the minimum positive gap
among the tested axes, which reduces to the minimum positive gap along the
global x or y axis. -/
theorem c6_axis_aligned_separation :
    (¬ intersects ⟨1, 0, 0, 2, 2⟩ ⟨4, 0, 0, 2, 2⟩)
    ∧ separation ⟨1, 0, 0, 2, 2⟩ ⟨4, 0, 0, 2, 2⟩ = 1
    ∧ ∀ o1 o2 : CollisionGeometry, o1.theta = 0 → o2.theta = 0 →
        separation o1 o2 =
          sInf {g | (g = axisGapX o1 o2 ∨ g = axisGapY o1 o2) ∧ tol < g} := by
  refine ⟨?_, c6_separation, ?_⟩
  · intro h
    have := h 1 (by rw [c6_gaps]; simp)
    norm_num [tol] at this
  · intro o1 o2 h1 h2
    unfold separation
    rw [posGaps_axis_aligned o1 o2 h1 h2]

theorem c7_gaps :
    gaps ⟨1, 0, 0, 2, 2⟩ ⟨4, 0, 45 * Real.pi / 180, 2, 2⟩ =
      [2 - Real.sqrt 2, -(1 + Real.sqrt 2),
       Real.sqrt 2 / 2 - 1, Real.sqrt 2 / 2 - 1] := by
  have hθ : (45 : ℝ) * Real.pi / 180 = Real.pi / 4 := by ring
  have hsq : Real.sqrt 2 * Real.sqrt 2 = 2 := Real.mul_self_sqrt (by norm_num)
  have h1 : |Real.sqrt 2 / 2| = Real.sqrt 2 / 2 := abs_of_nonneg (by positivity)
  have h2 : |3 * (Real.sqrt 2 / 2)| = 3 * (Real.sqrt 2 / 2) :=
    abs_of_nonneg (by positivity)
  have h3 : Real.sqrt 2 / 2 * (Real.sqrt 2 / 2)
      + Real.sqrt 2 / 2 * (Real.sqrt 2 / 2) = 1 := by nlinarith [hsq]
  simp only [gaps, candidateAxes, List.map_cons, List.map_nil, gapOn, extentOn,
    axisU, axisV, dot, hθ, Real.cos_pi_div_four, Real.sin_pi_div_four,
    Real.cos_zero, Real.sin_zero]
  norm_num [h1, h2, h3]
  refine ⟨by ring, by ring⟩

theorem sqrt_two_lt : Real.sqrt 2 < 1415 / 1000 := by
  nlinarith [Real.mul_self_sqrt (show (0 : ℝ) ≤ 2 by norm_num),
    Real.sqrt_nonneg 2]

theorem sqrt_two_gt : 1414 / 1000 < Real.sqrt 2 := by
  nlinarith [Real.mul_self_sqrt (show (0 : ℝ) ≤ 2 by norm_num),
    Real.sqrt_nonneg 2]

theorem c7_separation :
    separation ⟨1, 0, 0, 2, 2⟩ ⟨4, 0, 45 * Real.pi / 180, 2, 2⟩
      = 2 - Real.sqrt 2 := by
  unfold separation
  have hset : {g | g ∈ gaps ⟨1, 0, 0, 2, 2⟩ ⟨4, 0, 45 * Real.pi / 180, 2, 2⟩
      ∧ tol < g} = {2 - Real.sqrt 2} := by
    ext g
    simp only [c7_gaps, List.mem_cons, List.not_mem_nil, or_false,
      Set.mem_setOf_eq, Set.mem_singleton_iff, tol]
    constructor
    · rintro ⟨rfl | rfl | rfl | rfl, ht⟩
      · rfl
      · exact absurd ht (by nlinarith [Real.sqrt_nonneg 2])
      · exact absurd ht (by nlinarith [sqrt_two_lt])
      · exact absurd ht (by nlinarith [sqrt_two_lt])
    · rintro rfl
      exact ⟨Or.inl rfl, by nlinarith [sqrt_two_lt]⟩
  rw [hset, csInf_singleton]

theorem c7_not_intersects :
    ¬ intersects ⟨1, 0, 0, 2, 2⟩ ⟨4, 0, 45 * Real.pi / 180, 2, 2⟩ := by
  intro h
  have := h (2 - Real.sqrt 2) (by rw [c7_gaps]; simp)
  rw [tol] at this
  nlinarith [sqrt_two_lt]

/-- Claim C7, counterexample: at the rotated test input (2x2 box at x=1 with
heading 0 against a 2x2 box at x=4 rotated 45 degrees) the minimum positive
gap across the 4 candidate axes is 2 - sqrt 2 (about 0.586, attained on the
first box's x axis), so the reported separation is NOT within 1e-3 of 0.414:
the claimed value and the claimed 4-axis minimum-gap rule contradict each
other. -/
theorem c7_counterexample_separation_not_0414 :
    ¬ (¬ intersects ⟨1, 0, 0, 2, 2⟩ ⟨4, 0, 45 * Real.pi / 180, 2, 2⟩
      ∧ |separation ⟨1, 0, 0, 2, 2⟩ ⟨4, 0, 45 * Real.pi / 180, 2, 2⟩
          - 414 / 1000| ≤ 1 / 1000) := by
  rintro ⟨-, habs⟩
  rw [c7_separation, abs_of_nonneg (by nlinarith [sqrt_two_lt])] at habs
  nlinarith [sqrt_two_lt]

/-- Claim C7, amended: at the rotated test input the boxes do not intersect
and the reported separation — the minimum positive gap across the 4
candidate axes — equals 2 - sqrt 2 (about 0.586), not 0.414. -/
theorem c7_rotated_separation :
    ¬ intersects ⟨1, 0, 0, 2, 2⟩ ⟨4, 0, 45 * Real.pi / 180, 2, 2⟩
    ∧ separation ⟨1, 0, 0, 2, 2⟩ ⟨4, 0, 45 * Real.pi / 180, 2, 2⟩
        = 2 - Real.sqrt 2 :=
  ⟨c7_not_intersects, c7_separation⟩

/-- Claim C8: boundary-touching axis-aligned boxes (centers x=1 and x=3,
both 2x2: zero gap) are reported as intersecting, and a strictly positive
near-zero gap (here 1/2000, below the 1e-3 tolerance) is likewise
classified as intersection rather than separation. -/
theorem c8_touching_is_intersecting :
    intersects ⟨1, 0, 0, 2, 2⟩ ⟨3, 0, 0, 2, 2⟩
    ∧ intersects ⟨1, 0, 0, 2, 2⟩ ⟨3 + 1 / 2000, 0, 0, 2, 2⟩ := by
  constructor
  · intro g hg
    rw [gaps_axis_aligned _ _ rfl rfl] at hg
    simp only [List.mem_cons, List.not_mem_nil, or_false] at hg
    rcases hg with rfl | rfl | rfl | rfl <;> norm_num [axisGapX, axisGapY, tol]
  · intro g hg
    rw [gaps_axis_aligned _ _ rfl rfl] at hg
    simp only [List.mem_cons, List.not_mem_nil, or_false] at hg
    rcases hg with rfl | rfl | rfl | rfl <;>
      norm_num [axisGapX, axisGapY, tol, abs_le]

/-! ## Obstacle lifecycle tracker

The bodies of `LaneBlocker::obstacle_cb`, `LaneBlocker::process`,
`LaneBlocker::cull` and `LaneBlocker::request_lane_modifications` are not
among the repository's files; only their declarations in LaneBlocker.hpp
are.  The state machine below is modelled from the spec (sections 3, 4.2,
4.4 and 4.5).  The vicinity test (Geometry Engine plus proximity
threshold) is abstracted as a Boolean parameter `vic` and the stored
bounding box as a type parameter `Box`: claims C1-C4 are independent of
both. -/

/-- Modelled from the spec: an Obstacle Store record — last-known box,
observation time and expiry time (observation time + TTL). -/
structure ObstacleRecord (Box : Type) where
  box : Box
  observed_at : Int
  expiry_time : Int

/-- Modelled from the spec: the tracker's shared state — the Obstacle Store
(`_obstacle_buffer`, an association list keyed by obstacle key), the two
sides of the Obstacle-Lane Index (`_obstacle_to_lanes_map` and
`_lane_to_obstacles_map`, maps defaulting to the empty set) and the
Closed-Lanes Set (`_currently_closed_lanes`). -/
structure BState (Box : Type) where
  buffer : List (List Char × ObstacleRecord Box)
  o2l : List Char → Finset (List Char)
  l2o : List Char → Finset (List Char)
  closed : Finset (List Char)

/-- The empty starting state. -/
def initState (Box : Type) : BState Box :=
  ⟨[], fun _ => ∅, fun _ => ∅, ∅⟩

/-- Association-list lookup by key (the Store is keyed by obstacle key). -/
def lookupBuf {Box : Type} :
    List (List Char × ObstacleRecord Box) → List Char →
      Option (ObstacleRecord Box)
  | [], _ => none
  | e :: rest, k => if e.1 = k then some e.2 else lookupBuf rest k

section Tracker

variable {Box : Type}

/-- Modelled from the spec: observation ingestion (`obstacle_cb`) — replaces
any existing Store record for the observation's identity key and sets its
expiry to observation time + TTL; ingestion only updates the Store, never
the index. -/
def upsert (source : List Char) (id : Nat) (box : Box)
    (observed_at ttl : Int) (s : BState Box) : BState Box :=
  let k := get_obstacle_key source id
  { s with buffer :=
      (k, ⟨box, observed_at, observed_at + ttl⟩)
        :: s.buffer.filter (fun e => decide (e.1 ≠ k)) }

/-- Modelled from the spec: apply one obstacle's recomputed vicinity-lane
set to the bidirectional index — diff the new set against the previous one
and update both sides symmetrically: the obstacle is inserted into the
vicinity set of each lane it entered and erased from that of each lane it
left. -/
def applyObstacle (k : List Char) (new : Finset (List Char))
    (s : BState Box) : BState Box :=
  let old := s.o2l k
  { s with
    o2l := Function.update s.o2l k new
    l2o := fun l =>
      if l ∈ new ∧ l ∉ old then insert k (s.l2o l)
      else if l ∈ old ∧ l ∉ new then (s.l2o l).erase k
      else s.l2o l }

/-- Modelled from the spec: fold `applyObstacle` over a list of Store
entries, each with its recomputed vicinity-lane set `newOf r`, returning
the updated state together with the set of lanes whose vicinity membership
changed (a full recompute pass uses the Geometry-Engine vicinity sets; the
cull uses the empty set, removing each expired obstacle from the index). -/
def applyDiffs (newOf : ObstacleRecord Box → Finset (List Char)) :
    List (List Char × ObstacleRecord Box) → BState Box →
      BState Box × Finset (List Char)
  | [], s => (s, ∅)
  | (k, r) :: rest, s =>
    let new := newOf r
    let old := s.o2l k
    let p := applyDiffs newOf rest (applyObstacle k new s)
    (p.1, ((new \ old) ∪ (old \ new)) ∪ p.2)

/-- Number of obstacles currently in a lane's vicinity set. -/
def countL (s : BState Box) (l : List Char) : Nat := (s.l2o l).card

/-- Modelled from the spec: the closure/reopen decision
(`request_lane_modifications`) on the set of affected lanes, evaluated on
the post-pass index — a lane that is open with count ≥ threshold is
closed; a lane that is closed with count 0 is reopened; no other lane
changes state. -/
def decideClosures (threshold : Nat) (changed : Finset (List Char))
    (s : BState Box) : BState Box :=
  { s with closed :=
      (s.closed \ changed.filter (fun l => l ∈ s.closed ∧ countL s l = 0))
        ∪ changed.filter (fun l => l ∉ s.closed ∧ threshold ≤ countL s l) }

/-- Modelled from the spec: the vicinity-lane set of one stored obstacle —
every known lane whose box passes the vicinity test against the obstacle's
box. -/
def vicinitySet (vic : Box → List Char → Bool) (lanes : List (List Char))
    (r : ObstacleRecord Box) : Finset (List Char) :=
  (lanes.filter (vic r.box)).toFinset

/-- Modelled from the spec: one full Association Engine pass (`process`) —
recompute the vicinity set of every stored obstacle, apply all diffs to
both index sides, then run the closure rule on every lane whose vicinity
membership changed. -/
def processPass (vic : Box → List Char → Bool) (lanes : List (List Char))
    (threshold : Nat) (s : BState Box) : BState Box :=
  let p := applyDiffs (vicinitySet vic lanes) s.buffer s
  decideClosures threshold p.2 p.1

/-- Modelled from the spec: one Culling Engine pass (`cull`) at time `now` —
drop every Store record whose expiry time ≤ now, remove those obstacles
from both sides of the index, then run the closure rule on every affected
lane whose vicinity set became empty. -/
def cullPass (threshold : Nat) (now : Int) (s : BState Box) : BState Box :=
  let expired := s.buffer.filter (fun e => decide (e.2.expiry_time ≤ now))
  let p := applyDiffs (fun _ => ∅) expired
    { s with
      buffer := s.buffer.filter (fun e => decide (¬ e.2.expiry_time ≤ now)) }
  decideClosures threshold (p.2.filter (fun l => p.1.l2o l = ∅)) p.1

/-- The three externally triggered activities of the tracker. -/
inductive Op (Box : Type) where
  | upsert (source : List Char) (id : Nat) (box : Box) (observed_at ttl : Int)
  | process
  | cull (now : Int)

/-- One step of the tracker. -/
def stepOp (vic : Box → List Char → Bool) (lanes : List (List Char))
    (threshold : Nat) : Op Box → BState Box → BState Box
  | Op.upsert src id b t ttl, s => upsert src id b t ttl s
  | Op.process, s => processPass vic lanes threshold s
  | Op.cull now, s => cullPass threshold now s

/-- Run a sequence of operations from a state. -/
def runOps (vic : Box → List Char → Bool) (lanes : List (List Char))
    (threshold : Nat) (ops : List (Op Box)) (s : BState Box) : BState Box :=
  ops.foldl (fun st op => stepOp vic lanes threshold op st) s

end Tracker

section TrackerInv

variable {Box : Type}

/-- The two index maps are mutually consistent: a lane is in an obstacle's
vicinity-lane set iff the obstacle is in the lane's vicinity-obstacle set. -/
def InvIndex (s : BState Box) : Prop :=
  ∀ o l, l ∈ s.o2l o ↔ o ∈ s.l2o l

theorem applyObstacle_inv {s : BState Box} {k : List Char}
    {new : Finset (List Char)} (h : InvIndex s) :
    InvIndex (applyObstacle k new s) := by
  intro o l
  simp only [applyObstacle]
  by_cases ho : o = k
  · subst ho
    rw [Function.update_same]
    split_ifs with h1 h2
    · simp [h1.1]
    · simp [Finset.mem_erase, h2.2]
    · have hiff : l ∈ new ↔ l ∈ s.o2l o := by tauto
      rw [hiff]
      exact h o l
  · rw [Function.update_noteq ho]
    split_ifs with h1 h2
    · rw [Finset.mem_insert]
      simp only [ho, false_or]
      exact h o l
    · rw [Finset.mem_erase]
      simp only [ho, ne_eq, not_false_iff, true_and]
      exact h o l
    · exact h o l

theorem applyDiffs_inv {newOf : ObstacleRecord Box → Finset (List Char)} :
    ∀ {entries : List (List Char × ObstacleRecord Box)} {s : BState Box},
      InvIndex s → InvIndex (applyDiffs newOf entries s).1 := by
  intro entries
  induction entries with
  | nil => exact fun h => h
  | cons e rest ih =>
    intro s h
    obtain ⟨k, r⟩ := e
    rw [applyDiffs]
    exact ih (applyObstacle_inv h)

theorem decideClosures_inv {threshold : Nat} {changed : Finset (List Char)}
    {s : BState Box} (h : InvIndex s) :
    InvIndex (decideClosures threshold changed s) := h

theorem upsert_inv {src : List Char} {id : Nat} {b : Box} {t ttl : Int}
    {s : BState Box} (h : InvIndex s) : InvIndex (upsert src id b t ttl s) := h

theorem stepOp_inv {vic : Box → List Char → Bool} {lanes : List (List Char)}
    {threshold : Nat} {s : BState Box} (h : InvIndex s) :
    ∀ op : Op Box, InvIndex (stepOp vic lanes threshold op s)
  | Op.upsert _ _ _ _ _ => upsert_inv h
  | Op.process => decideClosures_inv (applyDiffs_inv h)
  | Op.cull _ => decideClosures_inv (applyDiffs_inv h)

theorem runOps_inv {vic : Box → List Char → Bool} {lanes : List (List Char)}
    {threshold : Nat} :
    ∀ (ops : List (Op Box)) (s : BState Box),
      InvIndex s → InvIndex (runOps vic lanes threshold ops s)
  | [], _, h => h
  | op :: ops, s, h => runOps_inv ops _ (stepOp_inv h op)

theorem initState_inv : InvIndex (initState Box) := by
  intro o l
  simp [initState]

/-- Claim C1: after any sequence of observation upserts, full
recomputations and culls, for every obstacle `o` and every lane `l`, lane
`l` is in obstacle `o`'s vicinity-lane set iff obstacle `o` is in lane
`l`'s vicinity-obstacle set: the two index maps stay mutually consistent in
every externally observable state. -/
theorem c1_bidirectional_index_consistency (Box : Type)
    (vic : Box → List Char → Bool) (lanes : List (List Char))
    (threshold : Nat) (ops : List (Op Box)) (o l : List Char) :
    l ∈ (runOps vic lanes threshold ops (initState Box)).o2l o
      ↔ o ∈ (runOps vic lanes threshold ops (initState Box)).l2o l :=
  runOps_inv ops (initState Box) initState_inv o l

/-! ### Store-key uniqueness -/

theorem lookupBuf_of_all_ne {buf : List (List Char × ObstacleRecord Box)}
    {k : List Char} (h : ∀ e ∈ buf, e.1 ≠ k) : lookupBuf buf k = none := by
  induction buf with
  | nil => rfl
  | cons e rest ih =>
    rw [lookupBuf, if_neg (h e (by simp))]
    exact ih fun e2 he2 => h e2 (by simp [he2])

theorem lookupBuf_filter_ne {buf : List (List Char × ObstacleRecord Box)}
    {k k2 : List Char} (hne : k2 ≠ k) :
    lookupBuf (buf.filter (fun e => decide (e.1 ≠ k))) k2 = lookupBuf buf k2 := by
  induction buf with
  | nil => rfl
  | cons e rest ih =>
    by_cases hk : e.1 = k
    · rw [List.filter_cons_of_neg (by simp [hk]), lookupBuf,
        if_neg (by rw [hk]; exact fun h => hne h.symm)]
      exact ih
    · rw [List.filter_cons_of_pos (by simp [hk]), lookupBuf, lookupBuf]
      split_ifs <;> [rfl; exact ih]

theorem upsert_nodup {src : List Char} {id : Nat} {b : Box} {t ttl : Int}
    {s : BState Box} (h : (s.buffer.map Prod.fst).Nodup) :
    ((upsert src id b t ttl s).buffer.map Prod.fst).Nodup := by
  simp only [upsert, List.map_cons]
  refine List.Nodup.cons ?_ (h.sublist ((List.filter_sublist _).map Prod.fst))
  intro hmem
  obtain ⟨e, he, hek⟩ := List.mem_map.mp hmem
  have := List.of_mem_filter he
  simp only [decide_eq_true_eq] at this
  exact this hek

theorem filter_nodup {p : List Char × ObstacleRecord Box → Bool}
    {s : BState Box} (h : (s.buffer.map Prod.fst).Nodup) :
    (((s.buffer.filter p).map Prod.fst)).Nodup :=
  h.sublist ((List.filter_sublist _).map Prod.fst)

theorem applyDiffs_buffer {newOf : ObstacleRecord Box → Finset (List Char)} :
    ∀ (entries : List (List Char × ObstacleRecord Box)) (s : BState Box),
      (applyDiffs newOf entries s).1.buffer = s.buffer
  | [], _ => rfl
  | (_, _) :: rest, s => applyDiffs_buffer rest _

theorem stepOp_nodup {vic : Box → List Char → Bool} {lanes : List (List Char)}
    {threshold : Nat} {s : BState Box} (h : (s.buffer.map Prod.fst).Nodup) :
    ∀ op : Op Box, ((stepOp vic lanes threshold op s).buffer.map Prod.fst).Nodup
  | Op.upsert _ _ _ _ _ => upsert_nodup h
  | Op.process => by
    show (((decideClosures _ _ _).buffer.map Prod.fst)).Nodup
    rw [show (decideClosures _ _ _).buffer
        = (applyDiffs (vicinitySet vic lanes) s.buffer s).1.buffer from rfl,
      applyDiffs_buffer]
    exact h
  | Op.cull now => by
    show (((decideClosures _ _ _).buffer.map Prod.fst)).Nodup
    rw [show (decideClosures _ _ _).buffer
        = (applyDiffs (fun _ => ∅) _ _).1.buffer from rfl,
      applyDiffs_buffer]
    exact filter_nodup h

theorem runOps_nodup {vic : Box → List Char → Bool} {lanes : List (List Char)}
    {threshold : Nat} :
    ∀ (ops : List (Op Box)) (s : BState Box),
      (s.buffer.map Prod.fst).Nodup →
      ((runOps vic lanes threshold ops s).buffer.map Prod.fst).Nodup
  | [], _, h => h
  | op :: ops, s, h => runOps_nodup ops _ (stepOp_nodup h op)

/-- Claim C4: in every reachable state the Obstacle Store holds at most one
record per identity key (its key list has no duplicates), and ingesting an
observation stores exactly the new record — pose box, observation time and
expiry reset to observation time + TTL — for that identity key, leaving
every other key's record untouched (replacement, never a merge). -/
theorem c4_store_uniqueness_and_replacement :
    (∀ (Box : Type) (vic : Box → List Char → Bool) (lanes : List (List Char))
      (threshold : Nat) (ops : List (Op Box)),
      (((runOps vic lanes threshold ops (initState Box)).buffer.map
        Prod.fst)).Nodup)
    ∧ (∀ (Box : Type) (s : BState Box) (src : List Char) (id : Nat) (b : Box)
        (t ttl : Int),
      lookupBuf (upsert src id b t ttl s).buffer (get_obstacle_key src id)
        = some ⟨b, t, t + ttl⟩
      ∧ ∀ k2, k2 ≠ get_obstacle_key src id →
          lookupBuf (upsert src id b t ttl s).buffer k2
            = lookupBuf s.buffer k2) := by
  constructor
  · intro Box vic lanes threshold ops
    exact runOps_nodup ops (initState Box) (by simp [initState])
  · intro Box s src id b t ttl
    constructor
    · simp [upsert, lookupBuf]
    · intro k2 hk2
      rw [upsert]
      simp only []
      rw [lookupBuf, if_neg fun h => hk2 h.symm]
      exact lookupBuf_filter_ne hk2

/-! ### Pointwise characterization of the index updates -/

theorem applyObstacle_o2l_self {s : BState Box} {k : List Char}
    {new : Finset (List Char)} : (applyObstacle k new s).o2l k = new := by
  simp only [applyObstacle]
  exact Function.update_same k new s.o2l

theorem applyObstacle_o2l_other {s : BState Box} {k k2 : List Char}
    {new : Finset (List Char)} (h : k2 ≠ k) :
    (applyObstacle k new s).o2l k2 = s.o2l k2 := by
  simp only [applyObstacle]
  exact Function.update_noteq h new s.o2l

theorem applyObstacle_l2o_self {s : BState Box} {k l : List Char}
    {new : Finset (List Char)} (hinv : InvIndex s) :
    k ∈ (applyObstacle k new s).l2o l ↔ l ∈ new := by
  simp only [applyObstacle]
  split_ifs with h1 h2
  · simp [h1.1]
  · simp only [Finset.mem_erase, ne_eq, not_true_eq_false, false_and,
      false_iff]
    exact h2.2
  · rw [← hinv k l]
    constructor
    · intro h
      tauto
    · intro h
      tauto

theorem applyObstacle_l2o_other {s : BState Box} {k o l : List Char}
    {new : Finset (List Char)} (ho : o ≠ k) :
    o ∈ (applyObstacle k new s).l2o l ↔ o ∈ s.l2o l := by
  simp only [applyObstacle]
  split_ifs
  · simp [Finset.mem_insert, ho]
  · simp [Finset.mem_erase, ho]
  · exact Iff.rfl

theorem applyObstacle_l2o_unchanged {s : BState Box} {k l : List Char}
    {new : Finset (List Char)}
    (hl : l ∉ (new \ s.o2l k ∪ s.o2l k \ new)) :
    (applyObstacle k new s).l2o l = s.l2o l := by
  simp only [Finset.mem_union, Finset.mem_sdiff, not_or, not_and] at hl
  simp only [applyObstacle]
  rw [if_neg, if_neg]
  · intro h
    exact hl.2 h.1 h.2
  · intro h
    exact hl.1 h.1 h.2

theorem lookupBuf_none_of_not_mem {buf : List (List Char × ObstacleRecord Box)}
    {k : List Char} (h : k ∉ buf.map Prod.fst) : lookupBuf buf k = none :=
  lookupBuf_of_all_ne fun e he heq =>
    h (heq ▸ List.mem_map_of_mem Prod.fst he)

theorem applyDiffs_o2l_not_mem {newOf : ObstacleRecord Box → Finset (List Char)} :
    ∀ {entries : List (List Char × ObstacleRecord Box)} {s : BState Box}
      {k : List Char}, k ∉ entries.map Prod.fst →
      (applyDiffs newOf entries s).1.o2l k = s.o2l k := by
  intro entries
  induction entries with
  | nil => exact fun _ => rfl
  | cons e rest ih =>
    intro s k hk
    obtain ⟨k0, r⟩ := e
    simp only [List.map_cons, List.mem_cons, not_or] at hk
    rw [applyDiffs]
    rw [ih hk.2]
    exact applyObstacle_o2l_other hk.1

theorem applyDiffs_o2l {newOf : ObstacleRecord Box → Finset (List Char)} :
    ∀ {entries : List (List Char × ObstacleRecord Box)} {s : BState Box}
      {k : List Char}, (entries.map Prod.fst).Nodup →
      (applyDiffs newOf entries s).1.o2l k
        = match lookupBuf entries k with
          | some r => newOf r
          | none => s.o2l k := by
  intro entries
  induction entries with
  | nil => exact fun _ => rfl
  | cons e rest ih =>
    intro s k hnd
    obtain ⟨k0, r⟩ := e
    simp only [List.map_cons, List.nodup_cons] at hnd
    rw [applyDiffs]
    by_cases hk : k0 = k
    · subst hk
      rw [lookupBuf, if_pos rfl, applyDiffs_o2l_not_mem hnd.1]
      exact applyObstacle_o2l_self
    · rw [lookupBuf, if_neg hk, ih hnd.2]
      cases hl : lookupBuf rest k with
      | some r2 => rfl
      | none => exact applyObstacle_o2l_other fun h => hk h.symm

theorem applyDiffs_l2o {newOf : ObstacleRecord Box → Finset (List Char)} :
    ∀ {entries : List (List Char × ObstacleRecord Box)} {s : BState Box}
      {o l : List Char}, InvIndex s → (entries.map Prod.fst).Nodup →
      (o ∈ (applyDiffs newOf entries s).1.l2o l
        ↔ match lookupBuf entries o with
          | some r => l ∈ newOf r
          | none => o ∈ s.l2o l) := by
  intro entries
  induction entries with
  | nil => exact fun _ _ => Iff.rfl
  | cons e rest ih =>
    intro s o l hinv hnd
    obtain ⟨k0, r⟩ := e
    simp only [List.map_cons, List.nodup_cons] at hnd
    rw [applyDiffs]
    by_cases ho : o = k0
    · subst ho
      rw [lookupBuf, if_pos rfl,
        ih (applyObstacle_inv hinv) hnd.2,
        lookupBuf_none_of_not_mem hnd.1]
      exact applyObstacle_l2o_self hinv
    · rw [lookupBuf, if_neg fun h => ho h.symm,
        ih (applyObstacle_inv hinv) hnd.2]
      cases hl : lookupBuf rest o with
      | some r2 => rfl
      | none => exact applyObstacle_l2o_other ho

theorem applyDiffs_l2o_of_not_changed
    {newOf : ObstacleRecord Box → Finset (List Char)} :
    ∀ {entries : List (List Char × ObstacleRecord Box)} {s : BState Box}
      {l : List Char}, l ∉ (applyDiffs newOf entries s).2 →
      (applyDiffs newOf entries s).1.l2o l = s.l2o l := by
  intro entries
  induction entries with
  | nil => exact fun _ => rfl
  | cons e rest ih =>
    intro s l hl
    obtain ⟨k0, r⟩ := e
    rw [applyDiffs] at hl ⊢
    simp only [Finset.mem_union, not_or] at hl
    rw [ih (by simpa using hl.2), applyObstacle_l2o_unchanged]
    simp only [Finset.mem_union, not_or]
    exact hl.1

theorem applyDiffs_changed_mem
    {newOf : ObstacleRecord Box → Finset (List Char)} :
    ∀ {entries : List (List Char × ObstacleRecord Box)} {s : BState Box}
      {l : List Char}, (entries.map Prod.fst).Nodup →
      (l ∈ (applyDiffs newOf entries s).2
        ↔ ∃ e ∈ entries,
            l ∈ (newOf e.2 \ s.o2l e.1 ∪ s.o2l e.1 \ newOf e.2)) := by
  intro entries
  induction entries with
  | nil =>
    intro s l _
    simp only [applyDiffs, Finset.not_mem_empty, List.not_mem_nil,
      false_and, exists_false, iff_false, not_false_iff]
  | cons e rest ih =>
    intro s l hnd
    obtain ⟨k0, r⟩ := e
    simp only [List.map_cons, List.nodup_cons] at hnd
    rw [applyDiffs]
    rw [Finset.mem_union, ih hnd.2]
    have hrw : ∀ e2 ∈ rest,
        (newOf e2.2 \ (applyObstacle k0 (newOf r) s).o2l e2.1
          ∪ (applyObstacle k0 (newOf r) s).o2l e2.1 \ newOf e2.2)
        = (newOf e2.2 \ s.o2l e2.1 ∪ s.o2l e2.1 \ newOf e2.2) := by
      intro e2 he2
      rw [applyObstacle_o2l_other]
      intro hEq
      exact hnd.1 (hEq ▸ List.mem_map_of_mem Prod.fst he2)
    constructor
    · rintro (h | ⟨e2, he2, hmem⟩)
      · exact ⟨(k0, r), List.mem_cons_self _ _, h⟩
      · exact ⟨e2, List.mem_cons_of_mem _ he2, by rwa [hrw e2 he2] at hmem⟩
    · rintro ⟨e2, he2, hmem⟩
      rcases List.mem_cons.mp he2 with rfl | he2
      · exact Or.inl hmem
      · exact Or.inr ⟨e2, he2, by rwa [hrw e2 he2]⟩

/-! ### Lookup lemmas for the Store -/

theorem lookupBuf_eq_none_iff {buf : List (List Char × ObstacleRecord Box)}
    {k : List Char} : lookupBuf buf k = none ↔ ∀ e ∈ buf, e.1 ≠ k := by
  induction buf with
  | nil => simp [lookupBuf]
  | cons e rest ih =>
    rw [lookupBuf]
    split_ifs with he
    · simp only [reduceCtorEq, false_iff, not_forall]
      exact ⟨e, by simp, by simp [he]⟩
    · rw [ih]
      constructor
      · intro h e2 he2
        rcases List.mem_cons.mp he2 with rfl | he2
        · exact he
        · exact h e2 he2
      · intro h e2 he2
        exact h e2 (List.mem_cons_of_mem _ he2)

theorem lookupBuf_mem {buf : List (List Char × ObstacleRecord Box)}
    {k : List Char} {r : ObstacleRecord Box}
    (h : lookupBuf buf k = some r) : (k, r) ∈ buf := by
  induction buf with
  | nil => exact absurd h (by simp [lookupBuf])
  | cons e rest ih =>
    rw [lookupBuf] at h
    split_ifs at h with he
    · have he2r : e.2 = r := by injection h
      have he3 : e = (k, r) := by
        obtain ⟨e1, e2⟩ := e
        simp only [Prod.mk.injEq]
        exact ⟨he, he2r⟩
      exact he3 ▸ List.mem_cons_self e rest
    · exact List.mem_cons_of_mem _ (ih h)

theorem lookupBuf_nodup_unique {buf : List (List Char × ObstacleRecord Box)}
    {k : List Char} {r : ObstacleRecord Box}
    (hnd : (buf.map Prod.fst).Nodup) (h : lookupBuf buf k = some r) :
    ∀ e ∈ buf, e.1 = k → e.2 = r := by
  induction buf with
  | nil => simp
  | cons e0 rest ih =>
    simp only [List.map_cons, List.nodup_cons] at hnd
    rw [lookupBuf] at h
    intro e he hek
    rcases List.mem_cons.mp he with rfl | he
    · rw [if_pos hek] at h
      injection h
    · split_ifs at h with he0
      · exfalso
        exact hnd.1 (he0 ▸ hek ▸ List.mem_map_of_mem Prod.fst he)
      · exact ih hnd.2 h e he hek

theorem lookupBuf_filter_of_kept {p : List Char × ObstacleRecord Box → Bool} :
    ∀ {buf : List (List Char × ObstacleRecord Box)} {k : List Char}
      {r : ObstacleRecord Box},
      lookupBuf buf k = some r → p (k, r) = true →
      lookupBuf (buf.filter p) k = some r := by
  intro buf
  induction buf with
  | nil => intro k r h; exact absurd h (by simp [lookupBuf])
  | cons e rest ih =>
    intro k r h hp
    obtain ⟨e1, e2⟩ := e
    rw [lookupBuf] at h
    split_ifs at h with he
    · have he1 : e1 = k := he
      have he2r : e2 = r := by injection h
      subst he1
      subst he2r
      rw [List.filter_cons_of_pos hp, lookupBuf, if_pos rfl]
    · by_cases hpe : p (e1, e2) = true
      · rw [List.filter_cons_of_pos hpe, lookupBuf, if_neg he]
        exact ih h hp
      · rw [List.filter_cons_of_neg (by simpa using hpe)]
        exact ih h hp

theorem lookupBuf_filter_none {p : List Char × ObstacleRecord Box → Bool}
    {buf : List (List Char × ObstacleRecord Box)} {k : List Char}
    (h : lookupBuf buf k = none) : lookupBuf (buf.filter p) k = none := by
  rw [lookupBuf_eq_none_iff] at h ⊢
  exact fun e he => h e (List.mem_filter.mp he).1

/-! ### Complete removal of an obstacle (claim C3) -/

/-- The obstacle key is absent from the Store, from the obstacle-to-lanes
map, and from every lane's vicinity-obstacle set. -/
def KClean (s : BState Box) (k : List Char) : Prop :=
  lookupBuf s.buffer k = none ∧ s.o2l k = ∅ ∧ ∀ l, k ∉ s.l2o l

theorem applyDiffs_kclean_index
    {newOf : ObstacleRecord Box → Finset (List Char)} :
    ∀ {entries : List (List Char × ObstacleRecord Box)} {s : BState Box}
      {k : List Char}, k ∉ entries.map Prod.fst →
      s.o2l k = ∅ → (∀ l, k ∉ s.l2o l) →
      (applyDiffs newOf entries s).1.o2l k = ∅
        ∧ ∀ l, k ∉ (applyDiffs newOf entries s).1.l2o l := by
  intro entries
  induction entries with
  | nil => exact fun _ h1 h2 => ⟨h1, h2⟩
  | cons e rest ih =>
    intro s k hk h1 h2
    obtain ⟨k0, r⟩ := e
    simp only [List.map_cons, List.mem_cons, not_or] at hk
    rw [applyDiffs]
    refine ih hk.2 ?_ ?_
    · rw [applyObstacle_o2l_other hk.1]
      exact h1
    · intro l
      rw [applyObstacle_l2o_other hk.1]
      exact h2 l

theorem processPass_buffer {vic : Box → List Char → Bool}
    {lanes : List (List Char)} {threshold : Nat} {s : BState Box} :
    (processPass vic lanes threshold s).buffer = s.buffer :=
  applyDiffs_buffer s.buffer s

theorem upsert_kclean {src : List Char} {id : Nat} {b : Box} {t ttl : Int}
    {s : BState Box} {k : List Char} (hk : get_obstacle_key src id ≠ k)
    (h : KClean s k) : KClean (upsert src id b t ttl s) k := by
  refine ⟨?_, h.2.1, h.2.2⟩
  rw [upsert]
  simp only []
  rw [lookupBuf, if_neg hk]
  exact lookupBuf_filter_none h.1

theorem processPass_kclean {vic : Box → List Char → Bool}
    {lanes : List (List Char)} {threshold : Nat} {s : BState Box}
    {k : List Char} (h : KClean s k) :
    KClean (processPass vic lanes threshold s) k := by
  have hk : k ∉ s.buffer.map Prod.fst := by
    intro hmem
    obtain ⟨e, he, hek⟩ := List.mem_map.mp hmem
    exact (lookupBuf_eq_none_iff.mp h.1) e he hek
  have hidx := @applyDiffs_kclean_index Box (vicinitySet vic lanes)
    s.buffer s k hk h.2.1 h.2.2
  exact ⟨by rw [processPass_buffer]; exact h.1, hidx.1, hidx.2⟩

theorem cullPass_buffer {threshold : Nat} {now : Int} {s : BState Box} :
    (cullPass threshold now s).buffer
      = s.buffer.filter (fun e => decide (¬ e.2.expiry_time ≤ now)) := by
  show (applyDiffs _ _ _).1.buffer = _
  exact applyDiffs_buffer _ _

theorem cullPass_kclean {threshold : Nat} {now : Int} {s : BState Box}
    {k : List Char} (h : KClean s k) : KClean (cullPass threshold now s) k := by
  have hk : k ∉ (s.buffer.filter
      (fun e => decide (e.2.expiry_time ≤ now))).map Prod.fst := by
    intro hmem
    obtain ⟨e, he, hek⟩ := List.mem_map.mp hmem
    exact (lookupBuf_eq_none_iff.mp h.1) e (List.mem_filter.mp he).1 hek
  have hidx := @applyDiffs_kclean_index Box (fun _ => (∅ : Finset (List Char)))
    (s.buffer.filter (fun e => decide (e.2.expiry_time ≤ now)))
    { s with buffer := (s.buffer.filter (fun e => decide (¬ e.2.expiry_time ≤ now))) }
    k hk h.2.1 h.2.2
  refine ⟨?_, ?_, ?_⟩
  · rw [cullPass_buffer]
    exact lookupBuf_filter_none h.1
  · exact hidx.1
  · exact hidx.2

theorem cullPass_removes {threshold : Nat} {now : Int} {s : BState Box}
    {k : List Char} {r : ObstacleRecord Box}
    (hnd : (s.buffer.map Prod.fst).Nodup) (hinv : InvIndex s)
    (hfound : lookupBuf s.buffer k = some r)
    (hexp : r.expiry_time ≤ now) : KClean (cullPass threshold now s) k := by
  have hndE : ((s.buffer.filter
      (fun e => decide (e.2.expiry_time ≤ now))).map Prod.fst).Nodup :=
    hnd.sublist ((List.filter_sublist _).map Prod.fst)
  have hmemE : (k, r) ∈ s.buffer.filter
      (fun e => decide (e.2.expiry_time ≤ now)) :=
    List.mem_filter.mpr ⟨lookupBuf_mem hfound, by simpa using hexp⟩
  have hlookE : lookupBuf (s.buffer.filter
      (fun e => decide (e.2.expiry_time ≤ now))) k = some r := by
    cases hl : lookupBuf (s.buffer.filter
        (fun e => decide (e.2.expiry_time ≤ now))) k with
    | none =>
      exact absurd rfl ((lookupBuf_eq_none_iff.mp hl) (k, r) hmemE)
    | some r2 =>
      have h2 := lookupBuf_nodup_unique hndE hl (k, r) hmemE rfl
      exact congrArg some h2.symm
  refine ⟨?_, ?_, ?_⟩
  · rw [cullPass_buffer, lookupBuf_eq_none_iff]
    intro e he hek
    have hkeep := List.of_mem_filter he
    have heq := lookupBuf_nodup_unique hnd hfound e (List.mem_filter.mp he).1 hek
    rw [heq] at hkeep
    simp only [decide_eq_true_eq] at hkeep
    exact hkeep hexp
  · show (applyDiffs (fun _ => (∅ : Finset (List Char)))
      (s.buffer.filter (fun e => decide (e.2.expiry_time ≤ now)))
      { s with buffer := (s.buffer.filter (fun e => decide (¬ e.2.expiry_time ≤ now))) }).1.o2l k = ∅
    rw [applyDiffs_o2l hndE, hlookE]
  · intro l
    show k ∉ (applyDiffs (fun _ => (∅ : Finset (List Char)))
      (s.buffer.filter (fun e => decide (e.2.expiry_time ≤ now)))
      { s with buffer := (s.buffer.filter (fun e => decide (¬ e.2.expiry_time ≤ now))) }).1.l2o l
    rw [applyDiffs_l2o (show InvIndex { s with buffer := (s.buffer.filter (fun e => decide (¬ e.2.expiry_time ≤ now))) } from hinv) hndE, hlookE]
    exact Finset.not_mem_empty l

theorem runOps_append {vic : Box → List Char → Bool} {lanes : List (List Char)}
    {threshold : Nat} (a b : List (Op Box)) (s : BState Box) :
    runOps vic lanes threshold (a ++ b) s
      = runOps vic lanes threshold b (runOps vic lanes threshold a s) :=
  List.foldl_append _ _ a b

theorem stepOp_pres_record {vic : Box → List Char → Bool}
    {lanes : List (List Char)} {threshold : Nat} {src : List Char} {id : Nat}
    {rec : ObstacleRecord Box} {s : BState Box} {op : Op Box}
    (hnd : (s.buffer.map Prod.fst).Nodup) (hinv : InvIndex s)
    (hop : ∀ b2 t2 ttl2, op ≠ Op.upsert src id b2 t2 ttl2)
    (hP : lookupBuf s.buffer (get_obstacle_key src id) = some rec
      ∨ KClean s (get_obstacle_key src id)) :
    lookupBuf (stepOp vic lanes threshold op s).buffer
        (get_obstacle_key src id) = some rec
      ∨ KClean (stepOp vic lanes threshold op s) (get_obstacle_key src id) := by
  cases op with
  | upsert src2 id2 b2 t2 ttl2 =>
    have hk : get_obstacle_key src2 id2 ≠ get_obstacle_key src id := by
      intro hEq
      obtain ⟨rfl, rfl⟩ := key_append_inj hEq
      exact hop b2 t2 ttl2 rfl
    rcases hP with hP | hP
    · left
      show lookupBuf (upsert src2 id2 b2 t2 ttl2 s).buffer _ = some rec
      rw [upsert]
      simp only []
      rw [lookupBuf, if_neg hk]
      rw [lookupBuf_filter_ne fun h => hk h.symm]
      exact hP
    · exact Or.inr (upsert_kclean hk hP)
  | process =>
    rcases hP with hP | hP
    · left
      show lookupBuf (processPass vic lanes threshold s).buffer _ = some rec
      rw [processPass_buffer]
      exact hP
    · exact Or.inr (processPass_kclean hP)
  | cull now =>
    rcases hP with hP | hP
    · by_cases hexp : rec.expiry_time ≤ now
      · exact Or.inr (cullPass_removes hnd hinv hP hexp)
      · left
        show lookupBuf (cullPass threshold now s).buffer _ = some rec
        rw [cullPass_buffer]
        exact lookupBuf_filter_of_kept hP (by simpa using hexp)
    · exact Or.inr (cullPass_kclean hP)

theorem runOps_pres_record {vic : Box → List Char → Bool}
    {lanes : List (List Char)} {threshold : Nat} {src : List Char} {id : Nat}
    {rec : ObstacleRecord Box} :
    ∀ (ops : List (Op Box)) (s : BState Box),
      (s.buffer.map Prod.fst).Nodup → InvIndex s →
      (∀ op ∈ ops, ∀ b2 t2 ttl2, op ≠ Op.upsert src id b2 t2 ttl2) →
      (lookupBuf s.buffer (get_obstacle_key src id) = some rec
        ∨ KClean s (get_obstacle_key src id)) →
      (lookupBuf (runOps vic lanes threshold ops s).buffer
          (get_obstacle_key src id) = some rec
        ∨ KClean (runOps vic lanes threshold ops s) (get_obstacle_key src id))
  | [], _, _, _, _, hP => hP
  | op :: ops, s, hnd, hinv, hops, hP =>
    runOps_pres_record ops _ (stepOp_nodup hnd op) (stepOp_inv hinv op)
      (fun op2 h2 => hops op2 (List.mem_cons_of_mem _ h2))
      (stepOp_pres_record hnd hinv (hops op (List.mem_cons_self _ _)) hP)

/-- Claim C3: a cull removes every expired obstacle completely — for every
record whose expiry time ≤ the cull time, after the cull the obstacle key
is absent from the Store, from the obstacle-to-lanes map and from every
lane's vicinity-obstacle set; consequently an obstacle upserted with TTL
`ttl` at time `t` and never re-observed is completely absent after a later
cull performed at any time > t + ttl. -/
theorem c3_cull_removes_expired_completely :
    (∀ (Box : Type) (vic : Box → List Char → Bool) (lanes : List (List Char))
      (threshold : Nat) (ops : List (Op Box)) (k : List Char)
      (r : ObstacleRecord Box) (now : Int),
      lookupBuf (runOps vic lanes threshold ops (initState Box)).buffer k
        = some r →
      r.expiry_time ≤ now →
      KClean (cullPass threshold now
        (runOps vic lanes threshold ops (initState Box))) k)
    ∧ (∀ (Box : Type) (vic : Box → List Char → Bool) (lanes : List (List Char))
        (threshold : Nat) (ops1 ops2 : List (Op Box)) (src : List Char)
        (id : Nat) (b : Box) (t ttl now : Int),
        (∀ op ∈ ops2, ∀ (b2 : Box) (t2 ttl2 : Int),
          op ≠ Op.upsert src id b2 t2 ttl2) →
        t + ttl < now →
        KClean (runOps vic lanes threshold
          (ops1 ++ Op.upsert src id b t ttl :: (ops2 ++ [Op.cull now]))
          (initState Box)) (get_obstacle_key src id)) := by
  constructor
  · intro Box vic lanes threshold ops k r now hfound hexp
    exact cullPass_removes
      (runOps_nodup ops (initState Box) (by simp [initState]))
      (runOps_inv ops (initState Box) initState_inv) hfound hexp
  · intro Box vic lanes threshold ops1 ops2 src id b t ttl now hno hlt
    rw [runOps_append]
    set s1 := runOps vic lanes threshold ops1 (initState Box) with hs1
    have hnd1 : (s1.buffer.map Prod.fst).Nodup :=
      runOps_nodup ops1 (initState Box) (by simp [initState])
    have hinv1 : InvIndex s1 := runOps_inv ops1 (initState Box) initState_inv
    show KClean (runOps vic lanes threshold (ops2 ++ [Op.cull now])
      (stepOp vic lanes threshold (Op.upsert src id b t ttl) s1)) _
    rw [runOps_append]
    set s2 := stepOp vic lanes threshold (Op.upsert src id b t ttl) s1 with hs2
    have hnd2 : (s2.buffer.map Prod.fst).Nodup :=
      stepOp_nodup hnd1 (Op.upsert src id b t ttl)
    have hinv2 : InvIndex s2 := stepOp_inv hinv1 (Op.upsert src id b t ttl)
    have hlook2 : lookupBuf s2.buffer (get_obstacle_key src id)
        = some ⟨b, t, t + ttl⟩ := by
      show lookupBuf (upsert src id b t ttl s1).buffer _ = _
      simp [upsert, lookupBuf]
    have hP3 := @runOps_pres_record Box vic lanes threshold src id
      (⟨b, t, t + ttl⟩ : ObstacleRecord Box)
      ops2 s2 hnd2 hinv2 hno (Or.inl hlook2)
    set s3 := runOps vic lanes threshold ops2 s2 with hs3
    have hnd3 : (s3.buffer.map Prod.fst).Nodup := runOps_nodup ops2 s2 hnd2
    have hinv3 : InvIndex s3 := runOps_inv ops2 s2 hinv2
    show KClean (cullPass threshold now s3) _
    rcases hP3 with hP3 | hP3
    · exact cullPass_removes hnd3 hinv3 hP3 (le_of_lt hlt)
    · exact cullPass_kclean hP3

/-- Non-vacuity check for claim C3: a concrete obstacle upserted at time 0
with TTL 1 and culled at time 2 is completely absent. -/
theorem c3_witness_concrete :
    KClean (runOps (fun (_ : Unit) (_ : List Char) => true) [['a']] 1
      ([] ++ Op.upsert [] 0 () 0 1 :: ([] ++ [Op.cull 2]))
      (initState Unit)) (get_obstacle_key [] 0) :=
  c3_cull_removes_expired_completely.2 Unit _ _ 1 [] [] [] 0 () 0 1 2
    (by simp) (by norm_num)

/-! ### Counting lemmas for the closure rule (claim C2) -/

theorem lookupBuf_of_mem_nodup {buf : List (List Char × ObstacleRecord Box)}
    {k : List Char} {r : ObstacleRecord Box}
    (hnd : (buf.map Prod.fst).Nodup) (hmem : (k, r) ∈ buf) :
    lookupBuf buf k = some r := by
  induction buf with
  | nil => simp at hmem
  | cons e rest ih =>
    simp only [List.map_cons, List.nodup_cons] at hnd
    rcases List.mem_cons.mp hmem with rfl | hmem
    · rw [lookupBuf, if_pos rfl]
    · rw [lookupBuf]
      split_ifs with he
      · exact absurd (he ▸ List.mem_map_of_mem Prod.fst hmem) hnd.1
      · exact ih hnd.2 hmem

theorem applyDiffs_closed {newOf : ObstacleRecord Box → Finset (List Char)} :
    ∀ (entries : List (List Char × ObstacleRecord Box)) (s : BState Box),
      (applyDiffs newOf entries s).1.closed = s.closed
  | [], _ => rfl
  | (_, _) :: rest, s => applyDiffs_closed rest _

theorem applyObstacle_empty_l2o_subset {s : BState Box} {k l : List Char} :
    (applyObstacle k ∅ s).l2o l ⊆ s.l2o l := by
  simp only [applyObstacle]
  split_ifs with h1 h2
  · exact absurd h1.1 (Finset.not_mem_empty l)
  · exact Finset.erase_subset k (s.l2o l)
  · exact subset_rfl

theorem cull_l2o_subset :
    ∀ (entries : List (List Char × ObstacleRecord Box)) (s : BState Box)
      (l : List Char),
      (applyDiffs (fun _ => (∅ : Finset (List Char))) entries s).1.l2o l
        ⊆ s.l2o l
  | [], _, _ => subset_rfl
  | (k, r) :: rest, s, l =>
    (cull_l2o_subset rest _ l).trans applyObstacle_empty_l2o_subset

theorem changed_count_pos {newOf : ObstacleRecord Box → Finset (List Char)}
    {entries : List (List Char × ObstacleRecord Box)} {s : BState Box}
    {l : List Char} (hinv : InvIndex s) (hnd : (entries.map Prod.fst).Nodup)
    (hchanged : l ∈ (applyDiffs newOf entries s).2)
    (hzero : s.l2o l = ∅) :
    (applyDiffs newOf entries s).1.l2o l ≠ ∅ := by
  obtain ⟨e, he, hmem⟩ := (applyDiffs_changed_mem hnd).mp hchanged
  obtain ⟨k, r⟩ := e
  rcases Finset.mem_union.mp hmem with hadd | hrem
  · have hpost : k ∈ (applyDiffs newOf entries s).1.l2o l := by
      rw [applyDiffs_l2o hinv hnd, lookupBuf_of_mem_nodup hnd he]
      exact (Finset.mem_sdiff.mp hadd).1
    intro h0
    rw [h0] at hpost
    exact absurd hpost (Finset.not_mem_empty k)
  · have hl : l ∈ s.o2l k := (Finset.mem_sdiff.mp hrem).1
    have hk : k ∈ s.l2o l := (hinv k l).mp hl
    rw [hzero] at hk
    exact absurd hk (Finset.not_mem_empty k)

theorem cull_changed_count_lt
    {entries : List (List Char × ObstacleRecord Box)} {s : BState Box}
    {l : List Char} (hinv : InvIndex s) (hnd : (entries.map Prod.fst).Nodup)
    (hchanged : l ∈ (applyDiffs (fun _ => (∅ : Finset (List Char)))
      entries s).2) :
    countL (applyDiffs (fun _ => (∅ : Finset (List Char))) entries s).1 l
      < countL s l := by
  obtain ⟨e, he, hmem⟩ := (applyDiffs_changed_mem hnd).mp hchanged
  obtain ⟨k, r⟩ := e
  have hl : l ∈ s.o2l k := by
    simpa using hmem
  have hk_pre : k ∈ s.l2o l := (hinv k l).mp hl
  have hk_post : k ∉ (applyDiffs (fun _ => (∅ : Finset (List Char)))
      entries s).1.l2o l := by
    rw [applyDiffs_l2o hinv hnd, lookupBuf_of_mem_nodup hnd he]
    exact Finset.not_mem_empty l
  exact Finset.card_lt_card
    ((Finset.ssubset_iff_of_subset (cull_l2o_subset entries s l)).mpr
      ⟨k, hk_pre, hk_post⟩)

theorem decideClosures_mem_closed {threshold : Nat}
    {changed : Finset (List Char)} {s : BState Box} {l : List Char} :
    l ∈ (decideClosures threshold changed s).closed ↔
      ((l ∈ s.closed ∧ ¬(l ∈ changed ∧ countL s l = 0))
        ∨ (l ∈ changed ∧ l ∉ s.closed ∧ threshold ≤ countL s l)) := by
  simp only [decideClosures, Finset.mem_union, Finset.mem_sdiff,
    Finset.mem_filter]
  tauto

theorem processPass_closed_mem {vic : Box → List Char → Bool}
    {lanes : List (List Char)} {threshold : Nat} {s : BState Box}
    {l : List Char} :
    l ∈ (processPass vic lanes threshold s).closed ↔
      ((l ∈ s.closed
          ∧ ¬(l ∈ (applyDiffs (vicinitySet vic lanes) s.buffer s).2
            ∧ countL (applyDiffs (vicinitySet vic lanes) s.buffer s).1 l = 0))
        ∨ (l ∈ (applyDiffs (vicinitySet vic lanes) s.buffer s).2
            ∧ l ∉ s.closed
            ∧ threshold
              ≤ countL (applyDiffs (vicinitySet vic lanes) s.buffer s).1 l)) := by
  have h := @decideClosures_mem_closed Box threshold
    (applyDiffs (vicinitySet vic lanes) s.buffer s).2
    (applyDiffs (vicinitySet vic lanes) s.buffer s).1 l
  rw [applyDiffs_closed] at h
  exact h

theorem processPass_count {vic : Box → List Char → Bool}
    {lanes : List (List Char)} {threshold : Nat} {s : BState Box}
    {l : List Char} :
    countL (processPass vic lanes threshold s) l
      = countL (applyDiffs (vicinitySet vic lanes) s.buffer s).1 l := rfl

theorem processPass_rules {vic : Box → List Char → Bool}
    {lanes : List (List Char)} {threshold : Nat} {s : BState Box}
    {l : List Char} (hnd : (s.buffer.map Prod.fst).Nodup)
    (hinv : InvIndex s)
    (holow : ∀ l2, l2 ∉ s.closed →
      countL s l2 = 0 ∨ countL s l2 < threshold) :
    (countL (processPass vic lanes threshold s) l ≠ countL s l →
      ((l ∉ s.closed →
          threshold ≤ countL (processPass vic lanes threshold s) l →
          l ∈ (processPass vic lanes threshold s).closed)
        ∧ (l ∈ s.closed →
            countL (processPass vic lanes threshold s) l = 0 →
            l ∉ (processPass vic lanes threshold s).closed)
        ∧ (l ∉ s.closed →
            countL (processPass vic lanes threshold s) l < threshold →
            l ∉ (processPass vic lanes threshold s).closed)
        ∧ (l ∈ s.closed →
            countL (processPass vic lanes threshold s) l ≠ 0 →
            l ∈ (processPass vic lanes threshold s).closed)))
    ∧ (countL (processPass vic lanes threshold s) l = countL s l →
        (l ∈ (processPass vic lanes threshold s).closed ↔ l ∈ s.closed))
    ∧ (l ∈ s.closed →
        (l ∉ (processPass vic lanes threshold s).closed ↔
          (countL (processPass vic lanes threshold s) l = 0
            ∧ countL s l ≠ 0))) := by
  have hcount : ∀ (h2 : l ∉ (applyDiffs (vicinitySet vic lanes) s.buffer s).2),
      countL (processPass vic lanes threshold s) l = countL s l := by
    intro h2
    rw [processPass_count]
    unfold countL
    rw [applyDiffs_l2o_of_not_changed h2]
  have hmem : countL (processPass vic lanes threshold s) l ≠ countL s l →
      l ∈ (applyDiffs (vicinitySet vic lanes) s.buffer s).2 := by
    intro hne
    by_contra h2
    exact hne (hcount h2)
  have hpos : l ∈ (applyDiffs (vicinitySet vic lanes) s.buffer s).2 →
      countL s l = 0 → countL (processPass vic lanes threshold s) l ≠ 0 := by
    intro hch h0 h0'
    rw [processPass_count] at h0'
    exact changed_count_pos hinv hnd hch (Finset.card_eq_zero.mp h0)
      (Finset.card_eq_zero.mp h0')
  refine ⟨?_, ?_, ?_⟩
  · intro hne
    have hch := hmem hne
    refine ⟨?_, ?_, ?_, ?_⟩
    · intro hopen hth
      rw [processPass_closed_mem]
      exact Or.inr ⟨hch, hopen, hth⟩
    · intro hcl h0
      rw [processPass_closed_mem]
      rintro (⟨-, hA⟩ | ⟨-, hopen, -⟩)
      · exact hA ⟨hch, h0⟩
      · exact hopen hcl
    · intro hopen hlt
      rw [processPass_closed_mem]
      rintro (⟨hcl, -⟩ | ⟨-, -, hth⟩)
      · exact hopen hcl
      · exact absurd hth (Nat.not_le.mpr hlt)
    · intro hcl h0
      rw [processPass_closed_mem]
      exact Or.inl ⟨hcl, fun hc => h0 hc.2⟩
  · intro heq
    rw [processPass_closed_mem]
    by_cases hch : l ∈ (applyDiffs (vicinitySet vic lanes) s.buffer s).2
    · by_cases hcl : l ∈ s.closed
      · have hne0 : countL (processPass vic lanes threshold s) l ≠ 0 := by
          intro h0
          exact hpos hch (heq ▸ h0) h0
        constructor
        · intro _
          exact hcl
        · intro _
          exact Or.inl ⟨hcl, fun hc => hne0 hc.2⟩
      · have hlow := holow l hcl
        have hlt : countL (processPass vic lanes threshold s) l < threshold := by
          rcases hlow with h0 | hlt
          · exact absurd (heq.trans h0) (hpos hch h0)
          · rw [heq]
            exact hlt
        constructor
        · rintro (⟨hc, -⟩ | ⟨-, -, hth⟩)
          · exact hc
          · exact absurd hth (Nat.not_le.mpr hlt)
        · intro hc
          exact absurd hc hcl
    · constructor
      · rintro (⟨hc, -⟩ | ⟨hc, -, -⟩)
        · exact hc
        · exact absurd hc hch
      · intro hc
        exact Or.inl ⟨hc, fun h2 => hch h2.1⟩
  · intro hcl
    constructor
    · intro hncl
      rw [processPass_closed_mem] at hncl
      push_neg at hncl
      have h2 := hncl.1 hcl
      refine ⟨h2.2, ?_⟩
      intro h0
      exact hpos h2.1 h0 h2.2
    · rintro ⟨h0, hne⟩
      have hch := hmem (by rw [h0]; exact fun h => hne h.symm)
      rw [processPass_closed_mem]
      rintro (⟨-, hA⟩ | ⟨-, hopen, -⟩)
      · exact hA ⟨hch, h0⟩
      · exact hopen hcl

theorem cullPass_closed_mem {threshold : Nat} {now : Int} {s : BState Box}
    {l : List Char} :
    l ∈ (cullPass threshold now s).closed ↔
      ((l ∈ s.closed
          ∧ ¬(l ∈ ((applyDiffs (fun _ => (∅ : Finset (List Char)))
                (s.buffer.filter (fun e => decide (e.2.expiry_time ≤ now)))
                { s with buffer := (s.buffer.filter (fun e => decide (¬ e.2.expiry_time ≤ now))) }).2.filter
                (fun l2 => (applyDiffs (fun _ => (∅ : Finset (List Char)))
                  (s.buffer.filter (fun e => decide (e.2.expiry_time ≤ now)))
                  { s with buffer := (s.buffer.filter (fun e => decide (¬ e.2.expiry_time ≤ now))) }).1.l2o l2 = ∅))
            ∧ countL (applyDiffs (fun _ => (∅ : Finset (List Char)))
                (s.buffer.filter (fun e => decide (e.2.expiry_time ≤ now)))
                { s with buffer := (s.buffer.filter (fun e => decide (¬ e.2.expiry_time ≤ now))) }).1 l = 0))
        ∨ (l ∈ ((applyDiffs (fun _ => (∅ : Finset (List Char)))
              (s.buffer.filter (fun e => decide (e.2.expiry_time ≤ now)))
              { s with buffer := (s.buffer.filter (fun e => decide (¬ e.2.expiry_time ≤ now))) }).2.filter
              (fun l2 => (applyDiffs (fun _ => (∅ : Finset (List Char)))
                (s.buffer.filter (fun e => decide (e.2.expiry_time ≤ now)))
                { s with buffer := (s.buffer.filter (fun e => decide (¬ e.2.expiry_time ≤ now))) }).1.l2o l2 = ∅))
            ∧ l ∉ s.closed
            ∧ threshold ≤ countL (applyDiffs (fun _ => (∅ : Finset (List Char)))
                (s.buffer.filter (fun e => decide (e.2.expiry_time ≤ now)))
                { s with buffer := (s.buffer.filter (fun e => decide (¬ e.2.expiry_time ≤ now))) }).1 l)) := by
  have h := @decideClosures_mem_closed Box threshold
    ((applyDiffs (fun _ => (∅ : Finset (List Char)))
      (s.buffer.filter (fun e => decide (e.2.expiry_time ≤ now)))
      { s with buffer := (s.buffer.filter (fun e => decide (¬ e.2.expiry_time ≤ now))) }).2.filter
      (fun l2 => (applyDiffs (fun _ => (∅ : Finset (List Char)))
        (s.buffer.filter (fun e => decide (e.2.expiry_time ≤ now)))
        { s with buffer := (s.buffer.filter (fun e => decide (¬ e.2.expiry_time ≤ now))) }).1.l2o l2 = ∅))
    (applyDiffs (fun _ => (∅ : Finset (List Char)))
      (s.buffer.filter (fun e => decide (e.2.expiry_time ≤ now)))
      { s with buffer := (s.buffer.filter (fun e => decide (¬ e.2.expiry_time ≤ now))) }).1 l
  rw [applyDiffs_closed] at h
  exact h

theorem cullPass_rules {threshold : Nat} {now : Int} {s : BState Box}
    {l : List Char} (hnd : (s.buffer.map Prod.fst).Nodup)
    (hinv : InvIndex s)
    (holow : ∀ l2, l2 ∉ s.closed →
      countL s l2 = 0 ∨ countL s l2 < threshold) :
    (countL (cullPass threshold now s) l ≠ countL s l →
      ((l ∉ s.closed →
          threshold ≤ countL (cullPass threshold now s) l →
          l ∈ (cullPass threshold now s).closed)
        ∧ (l ∈ s.closed →
            countL (cullPass threshold now s) l = 0 →
            l ∉ (cullPass threshold now s).closed)
        ∧ (l ∉ s.closed →
            countL (cullPass threshold now s) l < threshold →
            l ∉ (cullPass threshold now s).closed)
        ∧ (l ∈ s.closed →
            countL (cullPass threshold now s) l ≠ 0 →
            l ∈ (cullPass threshold now s).closed)))
    ∧ (countL (cullPass threshold now s) l = countL s l →
        (l ∈ (cullPass threshold now s).closed ↔ l ∈ s.closed))
    ∧ (l ∈ s.closed →
        (l ∉ (cullPass threshold now s).closed ↔
          (countL (cullPass threshold now s) l = 0
            ∧ countL s l ≠ 0))) := by
  have hndE : (((s.buffer.filter
      (fun e => decide (e.2.expiry_time ≤ now))).map Prod.fst)).Nodup :=
    hnd.sublist ((List.filter_sublist _).map Prod.fst)
  have hinv0 : InvIndex { s with buffer :=
      (s.buffer.filter (fun e => decide (¬ e.2.expiry_time ≤ now))) } := hinv
  have hcount : ∀ (h2 : l ∉ (applyDiffs (fun _ => (∅ : Finset (List Char)))
      (s.buffer.filter (fun e => decide (e.2.expiry_time ≤ now)))
      { s with buffer := (s.buffer.filter (fun e => decide (¬ e.2.expiry_time ≤ now))) }).2),
      countL (cullPass threshold now s) l = countL s l := by
    intro h2
    show countL (applyDiffs (fun _ => (∅ : Finset (List Char)))
      (s.buffer.filter (fun e => decide (e.2.expiry_time ≤ now)))
      { s with buffer := (s.buffer.filter (fun e => decide (¬ e.2.expiry_time ≤ now))) }).1 l = countL s l
    unfold countL
    rw [applyDiffs_l2o_of_not_changed h2]
  have hmem : countL (cullPass threshold now s) l ≠ countL s l →
      l ∈ (applyDiffs (fun _ => (∅ : Finset (List Char)))
        (s.buffer.filter (fun e => decide (e.2.expiry_time ≤ now)))
        { s with buffer := (s.buffer.filter (fun e => decide (¬ e.2.expiry_time ≤ now))) }).2 := by
    intro hne
    by_contra h2
    exact hne (hcount h2)
  have hlt : l ∈ (applyDiffs (fun _ => (∅ : Finset (List Char)))
      (s.buffer.filter (fun e => decide (e.2.expiry_time ≤ now)))
      { s with buffer := (s.buffer.filter (fun e => decide (¬ e.2.expiry_time ≤ now))) }).2 →
      countL (cullPass threshold now s) l < countL s l := by
    intro hch
    exact cull_changed_count_lt hinv0 hndE hch
  have hCHiff : l ∈ ((applyDiffs (fun _ => (∅ : Finset (List Char)))
      (s.buffer.filter (fun e => decide (e.2.expiry_time ≤ now)))
      { s with buffer := (s.buffer.filter (fun e => decide (¬ e.2.expiry_time ≤ now))) }).2.filter
      (fun l2 => (applyDiffs (fun _ => (∅ : Finset (List Char)))
        (s.buffer.filter (fun e => decide (e.2.expiry_time ≤ now)))
        { s with buffer := (s.buffer.filter (fun e => decide (¬ e.2.expiry_time ≤ now))) }).1.l2o l2 = ∅))
      ↔ (l ∈ (applyDiffs (fun _ => (∅ : Finset (List Char)))
          (s.buffer.filter (fun e => decide (e.2.expiry_time ≤ now)))
          { s with buffer := (s.buffer.filter (fun e => decide (¬ e.2.expiry_time ≤ now))) }).2
        ∧ countL (cullPass threshold now s) l = 0) := by
    rw [Finset.mem_filter]
    constructor
    · rintro ⟨h1, h2⟩
      exact ⟨h1, Finset.card_eq_zero.mpr h2⟩
    · rintro ⟨h1, h2⟩
      exact ⟨h1, Finset.card_eq_zero.mp h2⟩
  refine ⟨?_, ?_, ?_⟩
  · intro hne
    have hch := hmem hne
    have hlt' := hlt hch
    refine ⟨?_, ?_, ?_, ?_⟩
    · intro hopen hth
      rcases holow l hopen with h0 | hlow
      · rw [h0] at hlt'
        exact absurd hlt' (Nat.not_lt_zero _)
      · exact absurd hth (Nat.not_le.mpr (hlt'.trans hlow))
    · intro hcl h0
      rw [cullPass_closed_mem]
      rintro (⟨-, hA⟩ | ⟨-, hopen, -⟩)
      · exact hA ⟨hCHiff.mpr ⟨hch, h0⟩, h0⟩
      · exact hopen hcl
    · intro hopen hlt2
      rw [cullPass_closed_mem]
      rintro (⟨hcl, -⟩ | ⟨-, -, hth⟩)
      · exact hopen hcl
      · exact absurd hth (Nat.not_le.mpr hlt2)
    · intro hcl h0
      rw [cullPass_closed_mem]
      exact Or.inl ⟨hcl, fun hc => h0 (hCHiff.mp hc.1).2⟩
  · intro heq
    have hch : l ∉ (applyDiffs (fun _ => (∅ : Finset (List Char)))
        (s.buffer.filter (fun e => decide (e.2.expiry_time ≤ now)))
        { s with buffer := (s.buffer.filter (fun e => decide (¬ e.2.expiry_time ≤ now))) }).2 := by
      intro hch
      have := hlt hch
      rw [heq] at this
      exact absurd this (lt_irrefl _)
    rw [cullPass_closed_mem]
    constructor
    · rintro (⟨hc, -⟩ | ⟨hc, -, -⟩)
      · exact hc
      · exact absurd (hCHiff.mp hc).1 hch
    · intro hc
      exact Or.inl ⟨hc, fun h2 => hch (hCHiff.mp h2.1).1⟩
  · intro hcl
    constructor
    · intro hncl
      rw [cullPass_closed_mem, not_or] at hncl
      have h2 := Classical.byContradiction fun hX => hncl.1 ⟨hcl, hX⟩
      have hch := (hCHiff.mp h2.1).1
      have h0 := (hCHiff.mp h2.1).2
      refine ⟨h0, ?_⟩
      intro h0'
      have := hlt hch
      rw [h0', h0] at this
      exact absurd this (lt_irrefl _)
    · rintro ⟨h0, hne0⟩
      have hch := hmem (by rw [h0]; exact fun h => hne0 h.symm)
      rw [cullPass_closed_mem]
      rintro (⟨-, hA⟩ | ⟨-, hopen, -⟩)
      · exact hA ⟨hCHiff.mpr ⟨hch, h0⟩, h0⟩
      · exact hopen hcl

/-- The closure/reopen contract of one pass from state `s` to state `s2`,
for lane `l`: if the lane's vicinity-obstacle count changed, an open lane
with count ≥ threshold is closed, a closed lane with count 0 is reopened,
and nothing else transitions; if the count did not change the lane's state
is untouched; and a closed lane reopens exactly when its vicinity set
becomes empty (was nonempty before the pass and is empty after it). -/
def ClosureRuleOk (threshold : Nat) (s s2 : BState Box) (l : List Char) :
    Prop :=
  (countL s2 l ≠ countL s l →
    ((l ∉ s.closed → threshold ≤ countL s2 l → l ∈ s2.closed)
      ∧ (l ∈ s.closed → countL s2 l = 0 → l ∉ s2.closed)
      ∧ (l ∉ s.closed → countL s2 l < threshold → l ∉ s2.closed)
      ∧ (l ∈ s.closed → countL s2 l ≠ 0 → l ∈ s2.closed)))
  ∧ (countL s2 l = countL s l → (l ∈ s2.closed ↔ l ∈ s.closed))
  ∧ (l ∈ s.closed →
      (l ∉ s2.closed ↔ (countL s2 l = 0 ∧ countL s l ≠ 0)))

theorem processPass_openlow {vic : Box → List Char → Bool}
    {lanes : List (List Char)} {threshold : Nat} {s : BState Box}
    (hnd : (s.buffer.map Prod.fst).Nodup) (hinv : InvIndex s)
    (holow : ∀ l2, l2 ∉ s.closed →
      countL s l2 = 0 ∨ countL s l2 < threshold) :
    ∀ l, l ∉ (processPass vic lanes threshold s).closed →
      countL (processPass vic lanes threshold s) l = 0
        ∨ countL (processPass vic lanes threshold s) l < threshold := by
  intro l hl
  have hr := @processPass_rules Box vic lanes threshold s l hnd hinv holow
  by_cases hne : countL (processPass vic lanes threshold s) l = countL s l
  · have hiff := hr.2.1 hne
    have hopen : l ∉ s.closed := fun hc => hl (hiff.mpr hc)
    rcases holow l hopen with h0 | hlt
    · exact Or.inl (hne.trans h0)
    · exact Or.inr (hne ▸ hlt)
  · have hA := hr.1 hne
    by_cases hcl : l ∈ s.closed
    · left
      by_contra h0
      exact hl (hA.2.2.2 hcl h0)
    · right
      by_contra hge
      exact hl (hA.1 hcl (Nat.le_of_not_lt hge))

theorem cullPass_openlow {threshold : Nat} {now : Int} {s : BState Box}
    (hnd : (s.buffer.map Prod.fst).Nodup) (hinv : InvIndex s)
    (holow : ∀ l2, l2 ∉ s.closed →
      countL s l2 = 0 ∨ countL s l2 < threshold) :
    ∀ l, l ∉ (cullPass threshold now s).closed →
      countL (cullPass threshold now s) l = 0
        ∨ countL (cullPass threshold now s) l < threshold := by
  intro l hl
  have hr := @cullPass_rules Box threshold now s l hnd hinv holow
  by_cases hne : countL (cullPass threshold now s) l = countL s l
  · have hiff := hr.2.1 hne
    have hopen : l ∉ s.closed := fun hc => hl (hiff.mpr hc)
    rcases holow l hopen with h0 | hlt
    · exact Or.inl (hne.trans h0)
    · exact Or.inr (hne ▸ hlt)
  · have hA := hr.1 hne
    by_cases hcl : l ∈ s.closed
    · left
      by_contra h0
      exact hl (hA.2.2.2 hcl h0)
    · right
      by_contra hge
      exact hl (hA.1 hcl (Nat.le_of_not_lt hge))

theorem stepOp_openlow {vic : Box → List Char → Bool}
    {lanes : List (List Char)} {threshold : Nat} {s : BState Box}
    (hnd : (s.buffer.map Prod.fst).Nodup) (hinv : InvIndex s)
    (holow : ∀ l2, l2 ∉ s.closed →
      countL s l2 = 0 ∨ countL s l2 < threshold) :
    ∀ op : Op Box, ∀ l2,
      l2 ∉ (stepOp vic lanes threshold op s).closed →
      countL (stepOp vic lanes threshold op s) l2 = 0
        ∨ countL (stepOp vic lanes threshold op s) l2 < threshold
  | Op.upsert _ _ _ _ _ => holow
  | Op.process => processPass_openlow hnd hinv holow
  | Op.cull _ => cullPass_openlow hnd hinv holow

theorem runOps_openlow {vic : Box → List Char → Bool}
    {lanes : List (List Char)} {threshold : Nat} :
    ∀ (ops : List (Op Box)) (s : BState Box),
      (s.buffer.map Prod.fst).Nodup → InvIndex s →
      (∀ l2, l2 ∉ s.closed →
        countL s l2 = 0 ∨ countL s l2 < threshold) →
      ∀ l2, l2 ∉ (runOps vic lanes threshold ops s).closed →
        countL (runOps vic lanes threshold ops s) l2 = 0
          ∨ countL (runOps vic lanes threshold ops s) l2 < threshold
  | [], _, _, _, h => h
  | op :: ops, s, hnd, hinv, h =>
    runOps_openlow ops _ (stepOp_nodup hnd op) (stepOp_inv hinv op)
      (stepOp_openlow hnd hinv h op)

/-- Claim C2: the closure/reopen decision rule — after any reachable state,
both a full recompute pass and a cull pass obey `ClosureRuleOk` for every
lane: a lane whose vicinity-obstacle count changed transitions to closed
exactly when it was open with count ≥ threshold and to open exactly when it
was closed with count 0; no transition happens in any other case; and a
closed lane reopens exactly when its vicinity-obstacle set becomes empty,
whether through recomputation or through cull-driven expiry. -/
theorem c2_closure_reopen_decision_rule :
    ∀ (Box : Type) (vic : Box → List Char → Bool) (lanes : List (List Char))
      (threshold : Nat) (ops : List (Op Box)) (now : Int) (l : List Char),
      ClosureRuleOk threshold (runOps vic lanes threshold ops (initState Box))
        (processPass vic lanes threshold
          (runOps vic lanes threshold ops (initState Box))) l
      ∧ ClosureRuleOk threshold (runOps vic lanes threshold ops (initState Box))
        (cullPass threshold now
          (runOps vic lanes threshold ops (initState Box))) l := by
  intro Box vic lanes threshold ops now l
  have hnd := @runOps_nodup Box vic lanes threshold ops (initState Box)
    (by simp [initState])
  have hinv := @runOps_inv Box vic lanes threshold ops (initState Box)
    initState_inv
  have holow := @runOps_openlow Box vic lanes threshold ops (initState Box)
    (by simp [initState]) initState_inv
    (fun l2 _ => Or.inl (by simp [initState, countL]))
  exact ⟨processPass_rules hnd hinv holow, cullPass_rules hnd hinv holow⟩

/-- Non-vacuity check for claim C2: the closure/reopen contract at a
concrete run — one obstacle upserted near one lane, then a recompute pass
and a cull pass. -/
theorem c2_witness_concrete :
    ClosureRuleOk 1
      (runOps (fun (_ : Unit) (_ : List Char) => true) [['a']] 1
        [Op.upsert [] 0 () 0 5] (initState Unit))
      (processPass (fun (_ : Unit) (_ : List Char) => true) [['a']] 1
        (runOps (fun (_ : Unit) (_ : List Char) => true) [['a']] 1
          [Op.upsert [] 0 () 0 5] (initState Unit))) ['a']
    ∧ ClosureRuleOk 1
      (runOps (fun (_ : Unit) (_ : List Char) => true) [['a']] 1
        [Op.upsert [] 0 () 0 5] (initState Unit))
      (cullPass 1 9
        (runOps (fun (_ : Unit) (_ : List Char) => true) [['a']] 1
          [Op.upsert [] 0 () 0 5] (initState Unit))) ['a'] :=
  c2_closure_reopen_decision_rule Unit (fun _ _ => true) [['a']] 1
    [Op.upsert [] 0 () 0 5] 9 ['a']

end TrackerInv

end LaneBlockerModel
